import Mathlib

/-!
Verification of the tunnel manager core (`src/tunnel.c`) of the reqrypt
repository.  The C code is shallowly embedded: machine integers become `Nat`
with explicit `% 2^w` where wrap-around matters, the C `double` weight
arithmetic becomes exact rational arithmetic over `ℚ` (the literals 0.75,
0.15, 0.005 become 3/4, 3/20, 1/200), and the global mutable structures
(`tunnels_active`, the flow-history table) become explicit state records.
Driver calls, the RNG and concurrent state reads are supplied as oracles
(plain function arguments).
-/

/-- `TUNNEL_HISTORY_SIZE` from tunnel.c. -/
def TUNNEL_HISTORY_SIZE : ℕ := 1024

/-- `TUNNEL_INIT_AGE` from tunnel.c. -/
def TUNNEL_INIT_AGE : ℕ := 16

/-- `MAX_INIT_OPEN` from tunnel.c (tunnel_activate_manager). -/
def MAX_INIT_OPEN : ℕ := 8

/-- `MAX_RETRIES` from tunnel.c (tunnel_try_activate). -/
def MAX_RETRIES : ℕ := 3

/-- 2^32: modulus of C `uint32_t` arithmetic. -/
def U32 : ℕ := 4294967296

/-- `UINT32_MAX` = 2^32 - 1. -/
def UINT32MAX : ℕ := 4294967295

/-- 2^64: modulus of C `uint64_t` / `size_t` arithmetic. -/
def U64 : ℕ := 18446744073709551616

/-- Modelled from the spec: `CKTP_MAX_URL_LENGTH` lives in cktp.h, which is not
part of the staged sources; the spec only says URLs are bounded strings of
length at most `MAX_URL_LEN`.  The theorems below only use this constant as a
bound, never its numeric value. -/
def CKTP_MAX_URL_LENGTH : ℕ := 512

/-- Modelled from the spec: `SECONDS` (microseconds per second) lives in
misc.h, which is not part of the staged sources; the spec states backoffs in
seconds. -/
def SECONDS : ℕ := 1000000

/-- Modelled from the spec: `MILLISECONDS` (microseconds per millisecond)
lives in misc.h, not part of the staged sources. -/
def MILLISECONDS : ℕ := 1000

/-- The `state_t` lifecycle states of tunnel.c. -/
inductive TunnelState where
  | CLOSED : TunnelState
  | OPENING : TunnelState
  | OPEN : TunnelState
  | DEAD : TunnelState
  | CLOSING : TunnelState
  | DELETING : TunnelState
deriving Repr, DecidableEq

/-- The mutable fields of `struct tunnel_s` that the verified operations
touch.  `weight` is the C `double` modelled as an exact rational. -/
structure Tunnel where
  url : String
  id : ℕ
  state : TunnelState
  age : ℕ
  weight : ℚ
deriving Repr, DecidableEq

/-- In-place update of the i-th element of a list, modelling a write through
the `tunnel_t` pointer stored at index i of a tunnel set. -/
def modifyAt {α : Type} (f : α → α) : List α → ℕ → List α
  | [], _ => []
  | t :: rest, 0 => f t :: rest
  | t :: rest, n + 1 => t :: modifyAt f rest n

/-- `tunnel_set_lookup`: linear scan for the first record whose url matches;
`-1` becomes `none`. -/
def lookupIdx (url : String) : List Tunnel → Option ℕ
  | [] => none
  | t :: rest => if t.url = url then some 0 else (lookupIdx url rest).map (· + 1)

/-- The linear scan of tunnel_get (lines 645-657) for the first active record
whose id equals the flow-history id. -/
def findIdxById (i : ℕ) : List Tunnel → Option ℕ
  | [] => none
  | t :: rest => if t.id = i then some 0 else (findIdxById i rest).map (· + 1)

/-- The selector's state: the `tunnels_active` set and the static
`tunnel_history` array (slot -> (hash, id)), modelled as a total function. -/
structure SelState where
  active : List Tunnel
  hist : ℕ → ℕ × ℕ

/-- `hist_idx = (size_t)(hash % TUNNEL_HISTORY_SIZE)` (tunnel.c line 617). -/
def selHistIdx (hash : ℕ) : ℕ := (hash % U64) % TUNNEL_HISTORY_SIZE

/-- `hist_hash = (uint32_t)(hash ^ (hash >> 32))` (tunnel.c line 618). -/
def selHistHash (hash : ℕ) : ℕ := ((hash % U64) ^^^ ((hash % U64) / 4294967296)) % U32

/-- `weight_hash = hist_hash * (repeat + 1)` in uint32 arithmetic
(tunnel.c line 619); `repeat` itself is a C `unsigned`. -/
def selWeightHash (hash rpt : ℕ) : ℕ := (selHistHash hash * (rpt % U32 + 1)) % U32

/-- `pick = ((double)weight_hash / (double)UINT32_MAX) * total_weight`
(tunnel.c line 625), exact over ℚ. -/
def selPick (weights : List ℚ) (hash rpt : ℕ) : ℚ :=
  ((selWeightHash hash rpt : ℚ) / (UINT32MAX : ℚ)) * weights.sum

/-- The left-to-right weighted walk (tunnel.c lines 627-632): first index at
which `pick < weight`, subtracting weights as it goes; when no index
qualifies the loop leaves `idx = length`. -/
def walkIdx : List ℚ → ℚ → ℕ
  | [], _ => 0
  | w :: rest, pick => if pick < w then 0 else walkIdx rest (pick - w) + 1

/-- Punishment clamp (tunnel.c lines 652-654): `w * 0.75`, floored at 0.005. -/
def punishW (w : ℚ) : ℚ := if w * (3/4) < 1/200 then 1/200 else w * (3/4)

/-- Reward clamp (tunnel.c lines 669-670): `w + 0.15 * w`, capped at 1.0. -/
def rewardW (w : ℚ) : ℚ := if 1 < w + (3/20) * w then 1 else w + (3/20) * w

/-- The candidate index the walk produces (tunnel.c lines 627-632). -/
def selIdx (s : SelState) (hash rpt : ℕ) : ℕ :=
  walkIdx (s.active.map Tunnel.weight)
    (selPick (s.active.map Tunnel.weight) hash rpt)

/-- The index of the punished (`bad_tunnel`) record, when the punishment path
runs (tunnel.c lines 641-657): requires `repeat != 0`, a flow-history hash
hit, and an active record carrying the recorded id. -/
def punishedIdx (s : SelState) (hash rpt : ℕ) : Option ℕ :=
  if rpt % U32 ≠ 0 ∧ (s.hist (selHistIdx hash)).1 = selHistHash hash then
    findIdxById (s.hist (selHistIdx hash)).2 s.active
  else none

/-- The active set after the punishment weight update (the write through
`bad_tunnel` at tunnel.c lines 652-654).  The dead `pick -= bad_tunnel->weight`
of line 651 is not modelled: `pick` is never read again. -/
def activePunished (s : SelState) (hash rpt : ℕ) : List Tunnel :=
  match punishedIdx s hash rpt with
  | some b => modifyAt (fun t => { t with weight := punishW t.weight }) s.active b
  | none => s.active

/-- The candidate index after the `tunnel == bad_tunnel` advance (tunnel.c
lines 661-665).  C compares pointers; with no record object stored twice in
`tunnels_active` (spec invariant 5) that is index equality. -/
def selIdx2 (s : SelState) (hash rpt : ℕ) : ℕ :=
  if punishedIdx s hash rpt = some (selIdx s hash rpt)
  then (selIdx s hash rpt + 1) % s.active.length
  else selIdx s hash rpt

/-- Result of `tunnel_get`: `noTunnel` is the NULL return for an empty active
set (line 615); `oob` marks the walk leaving `idx = length`, where the C code
reads `tunnels_active.tunnels[idx]` out of bounds; `picked` carries the chosen
record (as returned, after its weight reward) and the updated state. -/
inductive GetResult where
  | noTunnel : GetResult
  | oob : GetResult
  | picked : Tunnel → SelState → GetResult

/-- True exactly on the out-of-bounds outcome. -/
def GetResult.isOob : GetResult → Bool
  | .oob => true
  | _ => false

/-- `tunnel_get` (tunnel.c lines 609-677). -/
def tunnelGet (s : SelState) (hash rpt : ℕ) : GetResult :=
  if s.active.length = 0 then .noTunnel
  else
    match s.active.get? (selIdx s hash rpt) with
    | none => .oob
    | some _ =>
      match (activePunished s hash rpt).get? (selIdx2 s hash rpt) with
      | none => .oob
      | some tsel =>
        .picked { tsel with weight := rewardW tsel.weight }
          { active := modifyAt (fun t => { t with weight := rewardW t.weight })
              (activePunished s hash rpt) (selIdx2 s hash rpt),
            hist := fun k => if k = selHistIdx hash
              then (selHistHash hash, tsel.id) else s.hist k }

/-- The selector state after one `tunnel_get` call (unchanged unless a tunnel
was picked; on the out-of-bounds outcome the C behaviour is undefined and the
pre-state is kept). -/
def selAfter (s : SelState) (hash rpt : ℕ) : SelState :=
  match tunnelGet s hash rpt with
  | .picked _ s1 => s1
  | _ => s

/-- A sequence of selector calls (hash, repeat). -/
def selectMany (s : SelState) (calls : List (ℕ × ℕ)) : SelState :=
  calls.foldl (fun st c => selAfter st c.1 c.2) s

/-- `tunnel_create` (tunnel.c lines 372-391): fresh record, state CLOSED,
weight 1.0, the given age, the next value of the process-wide uint16 id
counter. -/
def tunnel_create (url : String) (age fid : ℕ) : Tunnel :=
  { url := url, id := fid % 65536, state := .CLOSED, age := age, weight := 1 }

/-- Outcome of `tunnel_packets` (tunnel.c lines 557-604).  `lockHeld` records
whether `tunnels_lock` is still held when the function returns; `sentLens`
the packets handed to `cktp_tunnel_packet`. -/
structure PacketsOut where
  ok : Bool
  lockHeld : Bool
  final : SelState
  sentLens : List ℕ
  warned : Bool
  fragmented : Bool

/-- `tunnel_packets` (tunnel.c lines 557-604).  `mtuOf` is the oracle for
`cktp_tunnel_get_mtu(tunnel->tunnel, config_mtu)`; `pktLens` the ip header
`tot_len` values of the packet list.  `none` models the undefined behaviour
reached through the selector's out-of-bounds read. -/
def tunnelPackets (s : SelState) (hash rpt : ℕ) (mtuOf : Tunnel → ℕ)
    (pktLens : List ℕ) : Option PacketsOut :=
  match tunnelGet s hash rpt with
  | .noTunnel =>
    some { ok := false, lockHeld := false, final := s,
           sentLens := [], warned := true, fragmented := false }
  | .oob => none
  | .picked t s1 =>
    if mtuOf t = 0 then
      some { ok := false, lockHeld := true, final := s1,
             sentLens := [], warned := false, fragmented := false }
    else if pktLens.all (fun n => decide (n ≤ mtuOf t)) then
      some { ok := true, lockHeld := false, final := s1,
             sentLens := pktLens, warned := false, fragmented := false }
    else
      some { ok := true, lockHeld := false, final := s1,
             sentLens := [], warned := false, fragmented := true }

/-- Helper: `lockHeld` of a `tunnel_packets` outcome (false on the undefined
out-of-bounds path, which never returns normally). -/
def packetsLockHeld (r : Option PacketsOut) : Bool :=
  match r with
  | some o => o.lockHeld
  | none => false

/-- Helper: `ok` of a `tunnel_packets` outcome. -/
def packetsOk (r : Option PacketsOut) : Bool :=
  match r with
  | some o => o.ok
  | none => false

/-- A one-tunnel active set (weight 1.0) with an empty flow-history table. -/
def oneTunnel : Tunnel :=
  { url := "cktp://a", id := 0, state := .OPEN, age := 16, weight := 1 }

/-- Selector state holding just `oneTunnel`. -/
def oneState : SelState := { active := [oneTunnel], hist := fun _ => (0, 0) }

/-- `tunnel_activate`'s finalisation switch (tunnel.c lines 483-513), given
the `tunnel_try_activate` result, the record's state at lock acquisition and
the active set.  Returns (the record after the switch, or `none` when it was
freed; the active set; whether the `panic` default branch ran).  In the
DELETING branch the record is momentarily set OPEN and then freed by
`tunnel_free`; in the CLOSING branch the driver handle is closed and
cleared. -/
def tunnelActivateFinal (result : Bool) (t : Tunnel) (active : List Tunnel) :
    Option Tunnel × List Tunnel × Bool :=
  match t.state with
  | .DELETING => (none, active, false)
  | .CLOSING => (some { t with state := .CLOSED }, active, false)
  | .OPENING =>
    if result then
      (some { t with state := .OPEN, age := TUNNEL_INIT_AGE },
       active ++ [{ t with state := .OPEN, age := TUNNEL_INIT_AGE }], false)
    else
      (some { t with state := .DEAD, age := if t.age = 0 then 0 else t.age - 1 },
       active, false)
  | _ => (none, active, true)

/-- `MAX_INIT_OPEN - tunnels_active.length + 1` computed in `size_t`
arithmetic (tunnel.c line 446): for `len ≤ 9` this is `9 - len`; beyond that
the subtraction wraps around 2^64. -/
def initOpenQuota (lenActive : ℕ) : ℕ :=
  ((MAX_INIT_OPEN + (U64 - lenActive % U64)) % U64 + 1) % U64

/-- The scan loop of `tunnel_activate_manager` (tunnel.c lines 448-458):
walk the cache in order while `j < max`, turning CLOSED records to OPENING
(each spawns one activate task) and counting them in `j`. -/
def scanGo (maxJ : ℕ) : ℕ → List Tunnel → List Tunnel × ℕ
  | j, [] => ([], j)
  | j, t :: rest =>
    if j < maxJ then
      if t.state = .CLOSED then
        ({ t with state := .OPENING } :: (scanGo maxJ (j + 1) rest).1,
         (scanGo maxJ (j + 1) rest).2)
      else
        (t :: (scanGo maxJ j rest).1, (scanGo maxJ j rest).2)
    else (t :: rest, j)

/-- Number of CLOSED records in a cache. -/
def countClosed : List Tunnel → ℕ
  | [] => 0
  | t :: rest => (if t.state = .CLOSED then 1 else 0) + countClosed rest

/-- One iteration of `tunnel_activate_manager`'s loop (tunnel.c lines
442-470), with the `tunnels_active.length` read under the lock and the
(possibly different, concurrently changed) length read by the `while` test
after the sleep supplied as oracles.  `exits` is true when this iteration
leaves the loop: `break` on `j == max` (line 462), or the `while` condition
`tunnels_active.length < MAX_INIT_OPEN` failing (line 470). -/
structure MgrIter where
  cache2 : List Tunnel
  opened : ℕ
  quota : ℕ
  exits : Bool

/-- One `tunnel_activate_manager` iteration; see `MgrIter`. -/
def managerIter (cache : List Tunnel) (lenActive lenAfterSleep : ℕ) : MgrIter :=
  { cache2 := (scanGo (initOpenQuota lenActive) 0 cache).1,
    opened := (scanGo (initOpenQuota lenActive) 0 cache).2,
    quota := initOpenQuota lenActive,
    exits := if (scanGo (initOpenQuota lenActive) 0 cache).2 = initOpenQuota lenActive
             then true else decide (MAX_INIT_OPEN ≤ lenAfterSleep) }

/-- A CLOSED cache record, for concrete manager runs. -/
def closedTunnel (i : ℕ) : Tunnel :=
  { url := "cktp://u", id := i, state := .CLOSED, age := 16, weight := 1 }

/-- `retry_time_us = 10*SECONDS + stagger` with
`stagger = (random_uint32(rng) % 1000) * MILLISECONDS`
(tunnel.c lines 525-527); `rand` is the oracle for `random_uint32(rng)`. -/
def initialRetryTime (rand : ℕ) : ℕ :=
  10 * SECONDS + (rand % U32) % 1000 * MILLISECONDS

/-- The retry loop of `tunnel_try_activate` (tunnel.c lines 528-551).
`hs k` is the state the loop head reads before attempt `k`; `op k` whether
`cktp_open_tunnel` returns a handle at attempt `k`; `ps k` the state read
after a failed attempt `k` (line 537).  The fuel is the C `retries`
variable; the 0 case is unreachable from `MAX_RETRIES = 3`, since `retries`
is only ever tested right after its decrement.  Returns (the boolean result,
the number of `cktp_open_tunnel` calls made, the list of sleep durations). -/
def tryActivateGo (hs ps : ℕ → TunnelState) (op : ℕ → Bool) :
    ℕ → ℕ → ℕ → Bool × ℕ × List ℕ
  | k, _, 0 => (true, k, [])
  | k, rt, r + 1 =>
    if hs k ≠ .OPENING then (true, k, [])
    else if op k then (true, k + 1, [])
    else if ps k ≠ .OPENING then (true, k + 1, [])
    else if r = 0 then (false, k + 1, [])
    else
      ((tryActivateGo hs ps op (k + 1) (rt * 6) r).1,
       (tryActivateGo hs ps op (k + 1) (rt * 6) r).2.1,
       rt :: (tryActivateGo hs ps op (k + 1) (rt * 6) r).2.2)

/-- `tunnel_try_activate` (tunnel.c lines 522-552). -/
def tryActivate (hs ps : ℕ → TunnelState) (op : ℕ → Bool) (rand : ℕ) :
    Bool × ℕ × List ℕ :=
  tryActivateGo hs ps op 0 (initialRetryTime rand) MAX_RETRIES

/-- The decimal digit characters `fprintf`'s `%u` emits for `n`. -/
def decimalChars (n : ℕ) : List Char :=
  if n = 0 then ['0'] else (Nat.digits 10 n).reverse.map Nat.digitChar

/-- The block `tunnel_file_write` emits for one cache record (tunnel.c lines
352-353): a `# AGE = <age>` comment line, then `<url> <age>` and a blank
line. -/
def recordBlock (url : String) (age : ℕ) : List Char :=
  ('#' :: " AGE = ".data) ++ decimalChars age
    ++ '\n' :: url.data ++ ' ' :: decimalChars age ++ ['\n', '\n']

/-- The record blocks of `tunnel_file_write`'s loop (tunnel.c lines 347-355):
records with `age == 0` are skipped. -/
def writeBlocks : List (String × ℕ) → List Char
  | [] => []
  | r :: rest => (if r.2 ≠ 0 then recordBlock r.1 r.2 else []) ++ writeBlocks rest

/-- The full cache file text `tunnel_file_write` produces (tunnel.c lines
345-355): the `# <PROGRAM_NAME_LONG> tunnel cache` header comment, the
`# AUTOMATICALLY GENERATED, DO NOT EDIT` comment followed by a blank line,
then one block per cache record with nonzero age.  `PROGRAM_NAME_LONG` is a
config constant not in the staged sources, so the program name is a
parameter. -/
def fileWriteContent (progName : String) (cache : List (String × ℕ)) : List Char :=
  ('#' :: ' ' :: progName.data) ++ " tunnel cache\n".data
    ++ "# AUTOMATICALLY GENERATED, DO NOT EDIT\n\n".data
    ++ writeBlocks cache

/-- Outcome of `tunnel_file_write` (tunnel.c lines 326-367): whether
`tunnels_lock` is still held at return, and the file text written (none when
opening the temp file failed). -/
structure FileWriteOut where
  lockHeld : Bool
  written : Option (List Char)
  warnedBackup : Bool
  warnedOpenFail : Bool
  warnedRename : Bool

/-- `tunnel_file_write` (tunnel.c lines 326-367) with the outcomes of the
backup rename, the `fopen` of the temp file and the final rename as oracles.
When `fopen` fails the function warns and returns at line 342 without
reaching the `thread_unlock` at line 366. -/
def tunnelFileWrite (progName : String) (cache : List (String × ℕ))
    (renameBakOk fopenOk renameTmpOk : Bool) : FileWriteOut :=
  if fopenOk = false then
    { lockHeld := true, written := none, warnedBackup := !renameBakOk,
      warnedOpenFail := true, warnedRename := false }
  else
    { lockHeld := false, written := some (fileWriteContent progName cache),
      warnedBackup := !renameBakOk, warnedOpenFail := false,
      warnedRename := !renameTmpOk }

/-- The C `isspace` class (space, \t, \n, \v, \f, \r), as `fscanf`'s `%u`
skips it. -/
def isSpaceByte (c : Char) : Bool := c.toNat = 32 || (9 ≤ c.toNat && c.toNat ≤ 13)

/-- Decimal digit characters, as `fscanf`'s `%u` consumes them. -/
def isDigitByte (c : Char) : Bool := 48 ≤ c.toNat && c.toNat ≤ 57

/-- The value of a run of decimal digit characters. -/
def digitsVal (ds : List Char) : ℕ :=
  ds.foldl (fun a c => 10 * a + (c.toNat - 48)) 0

/-- `fscanf(file, "%u", &age)` (tunnel.c line 301): skip whitespace, then
consume a nonempty run of decimal digits; fails (returns a value other than
1) when no digit follows. -/
def scanfReadUInt (s : List Char) : Option (ℕ × List Char) :=
  if ((s.dropWhile isSpaceByte).takeWhile isDigitByte).isEmpty then none
  else some (digitsVal ((s.dropWhile isSpaceByte).takeWhile isDigitByte),
             (s.dropWhile isSpaceByte).dropWhile isDigitByte)

/-- The URL scan of `tunnel_file_read` (tunnel.c lines 285-298): read
characters until a space, at most `CKTP_MAX_URL_LENGTH` before it; `none`
models the warn-and-stop paths (end of file, or no space within the
bound). -/
def scanUrl : ℕ → List Char → Option (List Char × List Char)
  | _, [] => none
  | budget, c :: cs =>
    if c = ' ' then some ([], cs)
    else
      match budget with
      | 0 => none
      | b + 1 =>
        match scanUrl b cs with
        | some (u, r) => some (c :: u, r)
        | none => none

/-- The comment skip of `tunnel_file_read` (tunnel.c lines 278-284): consume
characters through the next newline (or to end of file). -/
def dropLine : List Char → List Char
  | [] => []
  | c :: cs => if c = '\n' then cs else dropLine cs

/-- The parse loop of `tunnel_file_read` (tunnel.c lines 256-318) over the
remaining file text.  Blank lines are skipped, `#` lines are skipped, and a
record line is a nonempty URL, a space, a decimal age of at most
`UINT8_MAX`, and a newline; any malformed line warns and stops the loop,
keeping the records parsed so far.  One unit of fuel is one loop iteration;
each iteration consumes at least one character. -/
def fileReadGo : ℕ → List Char → List (String × ℕ)
  | 0, _ => []
  | _ + 1, [] => []
  | fuel + 1, c :: cs =>
    if c = '\n' then fileReadGo fuel cs
    else if c = '#' then fileReadGo fuel (dropLine cs)
    else
      match scanUrl CKTP_MAX_URL_LENGTH (c :: cs) with
      | none => []
      | some (u, rest) =>
        if u.isEmpty then []
        else
          match scanfReadUInt rest with
          | none => []
          | some (age, rest2) =>
            if 255 < age then []
            else
              match rest2 with
              | '\n' :: rest3 => (String.mk u, age) :: fileReadGo fuel rest3
              | _ => []

/-- `tunnel_file_read`'s parse of a whole file text (tunnel.c lines
237-321): each parsed record is created with its persisted age and appended
to the cache, here collected as (url, age) pairs in order. -/
def fileRead (s : List Char) : List (String × ℕ) :=
  fileReadGo (s.length + 1) s

/-- A cache record supplies a well-formed persistence line: nonempty URL
within the length bound, no space or newline inside (the spec's URL syntax:
bounded length, no internal space characters), not starting with the
comment character, and a uint8 age. -/
def goodRecord (r : String × ℕ) : Prop :=
  r.1.data ≠ [] ∧ r.1.data.length ≤ CKTP_MAX_URL_LENGTH ∧ ' ' ∉ r.1.data ∧
    '\n' ∉ r.1.data ∧ r.1.data.head? ≠ some '#' ∧ r.2 ≤ 255

/-- Number of cache records with nonzero age (the records `tunnel_file_write`
persists). -/
def countNZ : List (String × ℕ) → ℕ
  | [] => 0
  | r :: rest => (if r.2 ≠ 0 then 1 else 0) + countNZ rest

/-- Outcome of `tunnel_add` (tunnel.c lines 682-717): the cache afterwards,
whether an activate task was spawned, whether `tunnel_file_write` was
invoked, and whether the already-open warning was logged. -/
structure AddOut where
  cache2 : List Tunnel
  spawned : Bool
  wrote : Bool
  warned : Bool
deriving Repr, DecidableEq

/-- `tunnel_add` (tunnel.c lines 682-717).  `urlOk` is the oracle for
`cktp_parse_url`; `fid` the current value of `tunnel_create`'s id counter.
An invalid URL returns at line 687 with no state change; a cache hit in
state OPEN or OPENING warns and returns at line 707; otherwise the (new or
reused) record is set to OPENING, a task is spawned and the file is
written. -/
def tunnel_add (urlOk : Bool) (cache : List Tunnel) (url : String) (fid : ℕ) :
    AddOut :=
  if urlOk = false then
    { cache2 := cache, spawned := false, wrote := false, warned := false }
  else
    match lookupIdx url cache with
    | none =>
      { cache2 := cache ++ [{ tunnel_create url TUNNEL_INIT_AGE fid with
          state := .OPENING }],
        spawned := true, wrote := true, warned := false }
    | some i =>
      match cache.get? i with
      | none => { cache2 := cache, spawned := false, wrote := false, warned := false }
      | some t =>
        if t.state = .OPEN ∨ t.state = .OPENING then
          { cache2 := cache, spawned := false, wrote := false, warned := true }
        else
          { cache2 := modifyAt (fun u => { u with state := .OPENING }) cache i,
            spawned := true, wrote := true, warned := false }

/-- The weight range invariant of the spec: `weight ∈ [0.005, 1.0]`. -/
def weightOK (w : ℚ) : Prop := 1/200 ≤ w ∧ w ≤ 1

/-- All active records satisfy the weight invariant. -/
def invariantW (s : SelState) : Prop := ∀ t ∈ s.active, weightOK t.weight

/-- The final weight of the sole tunnel of a one-element active set after a
selector call: punished (then rewarded) exactly when `repeat != 0`, the
flow-history slot holds the call's 32-bit hash, and the recorded id is the
tunnel's. -/
def singleFinalW (t : Tunnel) (hist : ℕ → ℕ × ℕ) (hash rpt : ℕ) : ℚ :=
  if rpt % U32 ≠ 0 ∧ (hist (selHistIdx hash)).1 = selHistHash hash ∧
      (hist (selHistIdx hash)).2 = t.id
  then rewardW (punishW t.weight) else rewardW t.weight

/-- All of `try_activate`'s attempts `k, k+1, ..., k+n-1` observe state
OPENING at the loop head, fail to obtain a handle, and still observe
OPENING after the failed open. -/
def allFailing (hs ps : ℕ → TunnelState) (op : ℕ → Bool) (k n : ℕ) : Prop :=
  ∀ i, i < n → hs (k + i) = .OPENING ∧ op (k + i) = false ∧ ps (k + i) = .OPENING

/-- A concrete active tunnel with id 3 for exercising the punishment path. -/
def w10t : Tunnel :=
  { url := "cktp://a", id := 3, state := .OPEN, age := 16, weight := 1 }

/-- A flow-history table whose every slot records hash 5 and tunnel id 3. -/
def w10h : ℕ → ℕ × ℕ := fun _ => (5, 3)

/-- Claim C1: at `hash = 0xFFFFFFFF`, `repeat = 0` the 32-bit weight hash is
`UINT32_MAX` and the pick equals the total weight, so on a one-tunnel active
set the weighted walk leaves `idx = len(active) = 1`:
`tunnel_get` then reads `tunnels_active.tunnels[1]`, one past the end of the
active array.  The claimed strict stop below `len(active)` fails exactly
there. -/
theorem tunnelGet_oob_at_weight_hash_max :
    selWeightHash 4294967295 0 = UINT32MAX
    ∧ selIdx oneState 4294967295 0 = oneState.active.length
    ∧ GetResult.isOob (tunnelGet oneState 4294967295 0) = true := by
  refine ⟨by decide, ?_, ?_⟩ <;> with_unfolding_all decide

/-- Claim C2: two operations return while still holding `tunnels_lock`.
`tunnel_packets` with a driver MTU of zero returns `false` at line 576 with
the lock held, and `tunnel_file_write` returns at line 342 with the lock
held when the temp cache file cannot be opened; the success paths of both
release the lock. -/
theorem lock_left_held_cex :
    packetsOk (tunnelPackets oneState 0 0 (fun _ => 0) []) = false
    ∧ packetsLockHeld (tunnelPackets oneState 0 0 (fun _ => 0) []) = true
    ∧ packetsLockHeld (tunnelPackets oneState 0 0 (fun _ => 1500) []) = false
    ∧ (tunnelFileWrite "reqrypt" [("cktp://a", 16)] true false true).lockHeld = true
    ∧ (tunnelFileWrite "reqrypt" [("cktp://a", 16)] true true true).lockHeld = false := by
  refine ⟨?_, ?_, ?_, by decide, by decide⟩ <;> with_unfolding_all decide

/-- Claim C8: with an empty active set the selector returns NULL for every
(hash, repeat) without touching any state, and `tunnel_packets` then
releases the lock, warns, returns fail, sends nothing and leaves the
selector state (active set and flow-history table) unchanged. -/
theorem tunnelGet_empty_spec (hash rpt : ℕ) (hist : ℕ → ℕ × ℕ)
    (mtuOf : Tunnel → ℕ) (lens : List ℕ) :
    tunnelGet { active := [], hist := hist } hash rpt = .noTunnel
    ∧ tunnelPackets { active := [], hist := hist } hash rpt mtuOf lens =
        some { ok := false, lockHeld := false,
               final := { active := [], hist := hist },
               sentLens := [], warned := true, fragmented := false } := by
  constructor
  · simp [tunnelGet]
  · simp [tunnelPackets, tunnelGet]

/-- Claim C5 counterexample: with an empty active set and a cache of nine
CLOSED records, one manager iteration opens nine candidates (the full
quota `8 - 0 + 1`) and the loop exits by the `j == max` break, although the
iteration did find candidates and `len(active) = 0 < MAX_INIT_OPEN`; and
with `len(active) = 10` the size_t quota `8 - 10 + 1` wraps, so an
iteration opens ten records even though the claimed bound
`MAX_INIT_OPEN - len(active) + 1 = -1` is below that. -/
theorem managerIter_exit_cex :
    (managerIter ((List.range 9).map closedTunnel) 0 0).exits = true
    ∧ (managerIter ((List.range 9).map closedTunnel) 0 0).opened = 9
    ∧ ¬ ((managerIter ((List.range 9).map closedTunnel) 0 0).opened = 0
          ∧ MAX_INIT_OPEN ≤ 0)
    ∧ (managerIter ((List.range 10).map closedTunnel) 10 0).opened = 10
    ∧ ((8 : ℤ) - 10 + 1 < 10) := by
  refine ⟨?_, ?_, ?_, ?_, by decide⟩ <;> with_unfolding_all decide

/-- Claim C10 counterexample: on a one-tunnel active set the selector does
not return that tunnel for every (hash, repeat): at `hash = 1`,
`repeat = 0xFFFFFFFE` the weight hash is `UINT32_MAX`, the walk leaves
`idx = 1 = len(active)`, and `tunnel_get` reads out of bounds instead of
returning the sole tunnel. -/
theorem tunnelGet_single_oob_cex :
    oneState.active.length = 1
    ∧ GetResult.isOob (tunnelGet oneState 1 4294967294) = true := by
  refine ⟨by decide, ?_⟩
  with_unfolding_all decide

/-- Claim C4: when the activate task finalises a record still in state
OPENING, a successful `try_activate` sets the state to OPEN, resets the age
to `INIT_AGE = 16` and appends the record to the active set; a failed one
sets the state to DEAD and decrements the age by one, saturating at 0
(truncated ℕ subtraction), leaving the active set unchanged. -/
theorem tunnelActivate_opening_spec (result : Bool) (t : Tunnel)
    (active : List Tunnel) (h : t.state = .OPENING) :
    TUNNEL_INIT_AGE = 16
    ∧ tunnelActivateFinal result t active =
      if result then
        (some { t with state := .OPEN, age := TUNNEL_INIT_AGE },
         active ++ [{ t with state := .OPEN, age := TUNNEL_INIT_AGE }], false)
      else
        (some { t with state := .DEAD, age := t.age - 1 }, active, false) := by
  refine ⟨rfl, ?_⟩
  have hage : (if t.age = 0 then 0 else t.age - 1) = t.age - 1 := by
    by_cases h0 : t.age = 0
    · simp [h0]
    · simp [h0]
  unfold tunnelActivateFinal
  rw [h]
  simp [hage]

/-- Claim C4 witness: finalising a failed activation of an OPENING record of
age 5 yields a DEAD record of age 4 and an unchanged active set. -/
theorem tunnelActivate_opening_wit :
    tunnelActivateFinal false
      { url := "cktp://a", id := 1, state := .OPENING, age := 5, weight := 1 } []
      = (some { url := "cktp://a", id := 1, state := .DEAD, age := 4, weight := 1 },
         [], false) := by
  have h := tunnelActivate_opening_spec false
    { url := "cktp://a", id := 1, state := .OPENING, age := 5, weight := 1 } [] rfl
  simpa using h.2

/-- Claim C9: `tunnel_add` with an invalid URL changes nothing; for a URL
already cached in state OPEN or OPENING it warns and changes nothing;
otherwise it creates a record with age `INIT_AGE` and appends it to the
cache when the URL was absent (or reuses the cached record), sets its state
to OPENING, spawns an activate task and invokes `tunnel_file_write`. -/
theorem tunnelAdd_spec (cache : List Tunnel) (url : String) (fid : ℕ) :
    tunnel_add false cache url fid =
      { cache2 := cache, spawned := false, wrote := false, warned := false }
    ∧ (lookupIdx url cache = none →
        tunnel_add true cache url fid =
          { cache2 := cache ++
              [{ url := url, id := fid % 65536, state := .OPENING,
                 age := TUNNEL_INIT_AGE, weight := 1 }],
            spawned := true, wrote := true, warned := false })
    ∧ (∀ i t, lookupIdx url cache = some i → cache.get? i = some t →
        ((t.state = .OPEN ∨ t.state = .OPENING) →
          tunnel_add true cache url fid =
            { cache2 := cache, spawned := false, wrote := false, warned := true })
        ∧ (¬ (t.state = .OPEN ∨ t.state = .OPENING) →
          tunnel_add true cache url fid =
            { cache2 := modifyAt (fun u => { u with state := .OPENING }) cache i,
              spawned := true, wrote := true, warned := false })) := by
  refine ⟨by simp [tunnel_add], ?_, ?_⟩
  · intro hnone
    simp [tunnel_add, hnone, tunnel_create]
  · intro i t hl hg
    rw [List.get?_eq_getElem?] at hg
    constructor
    · intro hs
      simp [tunnel_add, hl, hg, hs]
    · intro hs
      simp [tunnel_add, hl, hg, hs]

/-- The punishment clamp keeps weights in [0.005, 1]. -/
theorem punishW_ok (w : ℚ) (h : weightOK w) : weightOK (punishW w) := by
  obtain ⟨h1, h2⟩ := h
  unfold punishW weightOK
  split
  · constructor <;> norm_num
  · constructor <;> linarith

/-- The reward clamp keeps weights in [0.005, 1]. -/
theorem rewardW_ok (w : ℚ) (h : weightOK w) : weightOK (rewardW w) := by
  obtain ⟨h1, h2⟩ := h
  unfold rewardW weightOK
  split
  · constructor <;> norm_num
  · constructor <;> linarith

/-- A pointwise-preserved predicate is preserved by `modifyAt`. -/
theorem mem_modifyAt {α : Type} (P : α → Prop) (f : α → α)
    (hf : ∀ x, P x → P (f x)) :
    ∀ (l : List α) (i : ℕ), (∀ x ∈ l, P x) → ∀ y ∈ modifyAt f l i, P y := by
  intro l
  induction l with
  | nil =>
    intro i _ y hy
    simp [modifyAt] at hy
  | cons a rest ih =>
    intro i h y hy
    cases i with
    | zero =>
      simp only [modifyAt, List.mem_cons] at hy
      rcases hy with hy | hy
      · exact hy ▸ hf a (h a (by simp))
      · exact h y (by simp [hy])
    | succ n =>
      simp only [modifyAt, List.mem_cons] at hy
      rcases hy with hy | hy
      · exact hy ▸ h a (by simp)
      · exact ih n (fun x hx => h x (by simp [hx])) y hy

/-- The weight invariant survives the punishment stage of `tunnel_get`. -/
theorem invariantW_activePunished (s : SelState) (hash rpt : ℕ)
    (h : invariantW s) : ∀ x ∈ activePunished s hash rpt, weightOK x.weight := by
  have h' : ∀ x ∈ s.active, weightOK x.weight := h
  unfold activePunished
  split
  · exact mem_modifyAt (fun t : Tunnel => weightOK t.weight)
      (fun t => { t with weight := punishW t.weight })
      (fun x hx => punishW_ok x.weight hx) s.active _ h'
  · exact h'

/-- The weight invariant survives a full `tunnel_get` call that picks a
tunnel. -/
theorem invariantW_tunnelGet (s : SelState) (hash rpt : ℕ) (h : invariantW s)
    (t : Tunnel) (s1 : SelState) (hg : tunnelGet s hash rpt = .picked t s1) :
    invariantW s1 := by
  unfold tunnelGet at hg
  split at hg
  · exact absurd hg (by simp)
  · split at hg
    · exact absurd hg (by simp)
    · split at hg
      · exact absurd hg (by simp)
      · rw [GetResult.picked.injEq] at hg
        rw [← hg.2]
        intro y hy
        exact mem_modifyAt (fun u : Tunnel => weightOK u.weight)
          (fun u => { u with weight := rewardW u.weight })
          (fun x hx => rewardW_ok x.weight hx) _ _
          (invariantW_activePunished s hash rpt h) y hy

/-- The weight invariant survives one selector call. -/
theorem invariantW_selAfter (s : SelState) (hash rpt : ℕ) (h : invariantW s) :
    invariantW (selAfter s hash rpt) := by
  unfold selAfter
  cases hc : tunnelGet s hash rpt with
  | noTunnel => exact h
  | oob => exact h
  | picked t s1 => exact invariantW_tunnelGet s hash rpt h t s1 hc

/-- The weight invariant survives any sequence of selector calls. -/
theorem invariantW_selectMany (s : SelState) (calls : List (ℕ × ℕ))
    (h : invariantW s) : invariantW (selectMany s calls) := by
  induction calls generalizing s with
  | nil => exact h
  | cons c rest ih =>
    exact ih (selAfter s c.1 c.2) (invariantW_selAfter s c.1 c.2 h)

/-- Claim C3: records are created with weight 1.0 which is in [0.005, 1];
the punishment clamp (times 0.75, floored at 0.005) and the reward clamp
(times 1.15, capped at 1.0) both map [0.005, 1] into itself; hence no
sequence of selector calls drives any active record's weight outside
[0.005, 1.0]. -/
theorem weight_invariant_spec (s : SelState) (calls : List (ℕ × ℕ))
    (url : String) (age fid : ℕ) (h : invariantW s) :
    (tunnel_create url age fid).weight = 1
    ∧ weightOK (tunnel_create url age fid).weight
    ∧ (∀ w : ℚ, weightOK w → weightOK (punishW w) ∧ weightOK (rewardW w))
    ∧ invariantW (selectMany s calls) := by
  refine ⟨rfl, ⟨by norm_num [tunnel_create], by norm_num [tunnel_create]⟩,
    fun w hw => ⟨punishW_ok w hw, rewardW_ok w hw⟩,
    invariantW_selectMany s calls h⟩

/-- Claim C3 witness: the invariant holds after two selector calls (the
second exercising the punishment path) on a fresh one-tunnel state. -/
theorem weight_invariant_wit :
    (tunnel_create "cktp://a" 16 0).weight = 1
    ∧ invariantW (selectMany oneState [(0, 0), (5, 1)]) := by
  have h := weight_invariant_spec oneState [(0, 0), (5, 1)] "cktp://a" 16 0
    (by intro t ht
        simp only [oneState, oneTunnel, List.mem_singleton] at ht
        subst ht
        constructor <;> norm_num)
  exact ⟨h.1, h.2.2.2⟩

/-- The manager scan's count: the minimum of the quota and the number of
CLOSED records, starting from a count already at `j ≤ maxJ`. -/
theorem scanGo_count (maxJ : ℕ) :
    ∀ (l : List Tunnel) (j : ℕ), j ≤ maxJ →
      (scanGo maxJ j l).2 = min maxJ (j + countClosed l) := by
  intro l
  induction l with
  | nil =>
    intro j hj
    simp [scanGo, countClosed]
    omega
  | cons t rest ih =>
    intro j hj
    by_cases hjm : j < maxJ
    · by_cases hcl : t.state = .CLOSED
      · have hr := ih (j + 1) (by omega)
        simp [scanGo, hjm, hcl, countClosed, hr]
        omega
      · have hr := ih j hj
        simp [scanGo, hjm, hcl, countClosed, hr]
    · have hj' : j = maxJ := by omega
      simp [scanGo, hjm, countClosed]
      omega

/-- Claim C5 (amended): each manager iteration sets exactly
`min(quota, #CLOSED)` cache records from CLOSED to OPENING, scanning in
order, where the quota is `MAX_INIT_OPEN - len(active) + 1` in size_t
arithmetic (`9 - len(active)` for `len(active) ≤ 9`, wrapping for larger
active sets); the loop exits iff the iteration's count reached the quota
(the `j == max` break) or the active length observed after the sleep is at
least `MAX_INIT_OPEN`. -/
theorem managerIter_spec (cache : List Tunnel) (lenA lenS : ℕ) :
    (managerIter cache lenA lenS).opened
        = min (initOpenQuota lenA) (countClosed cache)
    ∧ (managerIter cache lenA lenS).opened ≤ initOpenQuota lenA
    ∧ (managerIter cache lenA lenS).quota = initOpenQuota lenA
    ∧ ((managerIter cache lenA lenS).exits = true ↔
        ((managerIter cache lenA lenS).opened = initOpenQuota lenA
          ∨ MAX_INIT_OPEN ≤ lenS)) := by
  have hc := scanGo_count (initOpenQuota lenA) cache 0 (Nat.zero_le _)
  simp only [managerIter]
  refine ⟨by rw [hc]; omega, by rw [hc]; omega, by trivial, ?_⟩
  by_cases hq : (scanGo (initOpenQuota lenA) 0 cache).2 = initOpenQuota lenA
  · simp [hq]
  · simp [hq]

/-- Claim C10 (amended): when the active set contains exactly one tunnel and
the 32-bit weight hash is not `UINT32_MAX` (so the pick is strictly below
the total weight and the walk stops at index 0), the selector returns that
tunnel for every (hash, repeat), including on the punishment path: the
candidate advance is taken modulo `len(active) = 1` and cannot move off the
sole tunnel, whose weight is first multiplied by 0.75 (clamped below at
0.005) when `repeat != 0` and the flow-history slot records this tunnel,
and then rewarded by 1.15 (clamped above at 1.0); the history slot is
rewritten with the call's 32-bit hash and the tunnel's id. -/
theorem tunnelGet_single_spec (t : Tunnel) (hist : ℕ → ℕ × ℕ) (hash rpt : ℕ)
    (hw : 0 < t.weight) (hwh : selWeightHash hash rpt ≠ UINT32MAX) :
    tunnelGet { active := [t], hist := hist } hash rpt =
      .picked { t with weight := singleFinalW t hist hash rpt }
        { active := [{ t with weight := singleFinalW t hist hash rpt }],
          hist := fun k => if k = selHistIdx hash
            then (selHistHash hash, t.id) else hist k } := by
  have hwlt : selWeightHash hash rpt < UINT32MAX := by
    have h1 : selWeightHash hash rpt < U32 := by
      unfold selWeightHash
      exact Nat.mod_lt _ (by norm_num [U32])
    unfold U32 at h1
    unfold UINT32MAX at hwh ⊢
    omega
  have hpick : selPick [t.weight] hash rpt < t.weight := by
    unfold selPick
    rw [List.sum_singleton]
    have hq : ((selWeightHash hash rpt : ℚ) / (UINT32MAX : ℚ)) < 1 := by
      rw [div_lt_one (by norm_num [UINT32MAX])]
      exact_mod_cast hwlt
    calc ((selWeightHash hash rpt : ℚ) / (UINT32MAX : ℚ)) * t.weight
        < 1 * t.weight := by exact mul_lt_mul_of_pos_right hq hw
      _ = t.weight := one_mul _
  have hidx : selIdx { active := [t], hist := hist } hash rpt = 0 := by
    unfold selIdx
    simp only [List.map]
    simp [walkIdx, hpick]
  by_cases hc1 : (rpt % U32 ≠ 0 ∧ (hist (selHistIdx hash)).1 = selHistHash hash)
  · by_cases hc2 : t.id = (hist (selHistIdx hash)).2
    · have hpi : punishedIdx { active := [t], hist := hist } hash rpt = some 0 := by
        simp [punishedIdx, hc1, findIdxById, hc2]
      have hfw : singleFinalW t hist hash rpt = rewardW (punishW t.weight) := by
        rw [singleFinalW, if_pos ⟨hc1.1, hc1.2, hc2.symm⟩]
      simp [tunnelGet, hidx, hpi, selIdx2, activePunished, modifyAt, hfw]
    · have hpi : punishedIdx { active := [t], hist := hist } hash rpt = none := by
        simp [punishedIdx, hc1, findIdxById, hc2]
      have hfw : singleFinalW t hist hash rpt = rewardW t.weight := by
        rw [singleFinalW, if_neg]
        intro hcon
        exact hc2 hcon.2.2.symm
      simp [tunnelGet, hidx, hpi, selIdx2, activePunished, modifyAt, hfw]
  · have hpi : punishedIdx { active := [t], hist := hist } hash rpt = none := by
      simp only [punishedIdx]
      rw [if_neg hc1]
    have hfw : singleFinalW t hist hash rpt = rewardW t.weight := by
      rw [singleFinalW, if_neg]
      intro hcon
      exact hc1 ⟨hcon.1, hcon.2.1⟩
    simp [tunnelGet, hidx, hpi, selIdx2, activePunished, modifyAt, hfw]

/-- Claim C10 witness: a concrete one-tunnel state whose flow-history slot
records the tunnel's id, with `repeat = 1`: the hypotheses of
`tunnelGet_single_spec` hold and the punished-then-rewarded weight results. -/
theorem tunnelGet_single_wit :
    tunnelGet { active := [w10t], hist := w10h } 5 1 =
      .picked { w10t with weight := singleFinalW w10t w10h 5 1 }
        { active := [{ w10t with weight := singleFinalW w10t w10h 5 1 }],
          hist := fun k => if k = selHistIdx 5
            then (selHistHash 5, w10t.id) else w10h k } :=
  tunnelGet_single_spec w10t w10h 5 1 (by norm_num [w10t]) (by decide)

/-- `allFailing` over a single attempt. -/
theorem allFailing_one (hs ps : ℕ → TunnelState) (op : ℕ → Bool) (k : ℕ) :
    allFailing hs ps op k 1 ↔
      (hs k = .OPENING ∧ op k = false ∧ ps k = .OPENING) := by
  unfold allFailing
  constructor
  · intro h
    simpa using h 0 (by omega)
  · intro h i hi
    have hi0 : i = 0 := by omega
    subst hi0
    simpa using h

/-- `allFailing` peeling off the first attempt. -/
theorem allFailing_succ (hs ps : ℕ → TunnelState) (op : ℕ → Bool) (k n : ℕ) :
    allFailing hs ps op k (n + 1) ↔
      ((hs k = .OPENING ∧ op k = false ∧ ps k = .OPENING)
        ∧ allFailing hs ps op (k + 1) n) := by
  unfold allFailing
  constructor
  · intro h
    refine ⟨by simpa using h 0 (by omega), fun i hi => ?_⟩
    have h2 := h (i + 1) (by omega)
    have e : k + (i + 1) = k + 1 + i := by omega
    rw [e] at h2
    exact h2
  · rintro ⟨h0, hrest⟩ i hi
    cases i with
    | zero => simpa using h0
    | succ j =>
      have h2 := hrest j (by omega)
      have e : k + 1 + j = k + (j + 1) := by omega
      rw [e] at h2
      exact h2

/-- The retry loop makes at most `r` open attempts from fuel `r`. -/
theorem tryActivateGo_le (hs ps : ℕ → TunnelState) (op : ℕ → Bool) :
    ∀ (r k rt : ℕ), (tryActivateGo hs ps op k rt r).2.1 ≤ k + r := by
  intro r
  induction r with
  | zero =>
    intro k rt
    simp [tryActivateGo]
  | succ n ih =>
    intro k rt
    by_cases h0 : hs k = .OPENING
    · by_cases h1 : op k
      · simp [tryActivateGo, h0, h1]
      · by_cases h2 : ps k = .OPENING
        · by_cases h3 : n = 0
          · simp [tryActivateGo, h0, h1, h2, h3]
          · have hr := ih (k + 1) (rt * 6)
            simp [tryActivateGo, h0, h1, h2, h3]
            omega
        · simp [tryActivateGo, h0, h1, h2]
    · simp [tryActivateGo, h0]

/-- One-step unfolding of the retry loop at positive fuel. -/
theorem tryActivateGo_succ_eq (hs ps : ℕ → TunnelState) (op : ℕ → Bool)
    (k rt r : ℕ) :
    tryActivateGo hs ps op k rt (r + 1) =
      if hs k ≠ .OPENING then (true, k, [])
      else if op k then (true, k + 1, [])
      else if ps k ≠ .OPENING then (true, k + 1, [])
      else if r = 0 then (false, k + 1, [])
      else
        ((tryActivateGo hs ps op (k + 1) (rt * 6) r).1,
         (tryActivateGo hs ps op (k + 1) (rt * 6) r).2.1,
         rt :: (tryActivateGo hs ps op (k + 1) (rt * 6) r).2.2) := rfl

/-- The retry loop returns failure exactly when every one of its attempts
fails with the state OPENING throughout. -/
theorem tryActivateGo_false_iff (hs ps : ℕ → TunnelState) (op : ℕ → Bool) :
    ∀ (m k rt : ℕ), ((tryActivateGo hs ps op k rt (m + 1)).1 = false
      ↔ allFailing hs ps op k (m + 1)) := by
  intro m
  induction m with
  | zero =>
    intro k rt
    rw [allFailing_one]
    by_cases h0 : hs k = .OPENING
    · by_cases h1 : op k
      · simp [tryActivateGo, h0, h1]
      · by_cases h2 : ps k = .OPENING
        · simp [tryActivateGo, h0, h1, h2]
        · simp [tryActivateGo, h0, h1, h2]
    · simp [tryActivateGo, h0]
  | succ n ih =>
    intro k rt
    rw [allFailing_succ, ← ih (k + 1) (rt * 6)]
    by_cases h0 : hs k = .OPENING
    · by_cases h1 : op k
      · simp [tryActivateGo, h0, h1]
      · by_cases h2 : ps k = .OPENING
        · simp [tryActivateGo, h0, h1, h2]
        · simp [tryActivateGo, h0, h1, h2]
    · simp [tryActivateGo, h0]

/-- A failing retry loop made exactly its full quota of attempts. -/
theorem tryActivateGo_false_count (hs ps : ℕ → TunnelState) (op : ℕ → Bool) :
    ∀ (m k rt : ℕ), (tryActivateGo hs ps op k rt (m + 1)).1 = false →
      (tryActivateGo hs ps op k rt (m + 1)).2.1 = k + (m + 1) := by
  intro m
  induction m with
  | zero =>
    intro k rt hf
    by_cases h0 : hs k = .OPENING
    · by_cases h1 : op k
      · simp [tryActivateGo, h0, h1] at hf
      · by_cases h2 : ps k = .OPENING
        · simp [tryActivateGo, h0, h1, h2]
        · simp [tryActivateGo, h0, h1, h2] at hf
    · simp [tryActivateGo, h0] at hf
  | succ n ih =>
    intro k rt hf
    rw [tryActivateGo_succ_eq] at hf ⊢
    by_cases h0 : hs k = .OPENING
    · by_cases h1 : op k
      · simp [h0, h1] at hf
      · by_cases h2 : ps k = .OPENING
        · simp only [h0, h1, h2] at hf ⊢
          simp at hf ⊢
          have hr := ih (k + 1) (rt * 6) hf
          omega
        · simp [h0, h1, h2] at hf
    · simp [h0] at hf

/-- As soon as an attempted open yields a handle the loop returns success,
having made exactly that many open calls. -/
theorem tryActivateGo_succ_at (hs ps : ℕ → TunnelState) (op : ℕ → Bool) :
    ∀ (r k rt j : ℕ), j < (tryActivateGo hs ps op k rt r).2.1 → k ≤ j →
      op j = true →
      (tryActivateGo hs ps op k rt r).1 = true
      ∧ (tryActivateGo hs ps op k rt r).2.1 = j + 1 := by
  intro r
  induction r with
  | zero =>
    intro k rt j hj hk _
    simp [tryActivateGo] at hj
    omega
  | succ n ih =>
    intro k rt j hj hk hop
    by_cases h0 : hs k = .OPENING
    · by_cases h1 : op k
      · simp only [tryActivateGo, h0, h1] at hj ⊢
        simp at hj ⊢
        omega
      · have hjk : j ≠ k := by
          intro he
          rw [he] at hop
          exact h1 hop
        by_cases h2 : ps k = .OPENING
        · by_cases h3 : n = 0
          · simp [tryActivateGo, h0, h1, h2, h3] at hj
            omega
          · simp only [tryActivateGo, h0, h1, h2, h3] at hj ⊢
            simp at hj ⊢
            exact ih (k + 1) (rt * 6) j hj (by omega) hop
        · simp [tryActivateGo, h0, h1, h2] at hj
          omega
    · simp [tryActivateGo, h0] at hj
      omega

/-- The sleeps the retry loop performs form a geometric backoff: the initial
retry time multiplied by 6 after each sleep, with at most `fuel - 1`
sleeps. -/
theorem tryActivateGo_sleeps (hs ps : ℕ → TunnelState) (op : ℕ → Bool) :
    ∀ (r k rt : ℕ),
      (tryActivateGo hs ps op k rt r).2.2
        = (List.range (tryActivateGo hs ps op k rt r).2.2.length).map
            (fun i => rt * 6 ^ i)
      ∧ (tryActivateGo hs ps op k rt r).2.2.length ≤ r - 1 := by
  intro r
  induction r with
  | zero =>
    intro k rt
    simp [tryActivateGo]
  | succ n ih =>
    intro k rt
    rw [tryActivateGo_succ_eq]
    by_cases h0 : hs k = .OPENING
    · by_cases h1 : op k
      · simp [h0, h1]
      · by_cases h2 : ps k = .OPENING
        · by_cases h3 : n = 0
          · simp [h0, h1, h2, h3]
          · have hr := ih (k + 1) (rt * 6)
            simp only [h0, h1, h2, h3]
            simp only [ne_eq, not_true_eq_false, Bool.false_eq_true, if_false]
            obtain ⟨hm, hl⟩ := hr
            constructor
            · conv_lhs => rw [hm]
              rw [List.length_cons, List.range_succ_eq_map, List.map_cons,
                List.map_map, pow_zero, mul_one]
              have hfun : (fun i => rt * 6 ^ i) ∘ Nat.succ
                  = fun i => rt * 6 * 6 ^ i := by
                funext i
                simp [Function.comp, pow_succ]
                ring
              rw [hfun]
            · rw [List.length_cons]
              omega
        · simp [h0, h1, h2]
    · simp [h0]

/-- Claim C6: `try_activate` makes at most `MAX_RETRIES = 3` calls to the
driver's open; it returns failure exactly when all 3 attempts fail with the
state observed as OPENING throughout (and then it made exactly 3 calls);
it returns success as soon as an attempted open yields a handle (having
made exactly that many calls, hence also whenever a state read shows the
record left OPENING mid-loop, every other exit being a success return); and
the sleeps between attempts start at `10 s + (random mod 1 s)` and are
multiplied by 6, at most two of them. -/
theorem tryActivate_spec (hs ps : ℕ → TunnelState) (op : ℕ → Bool) (rand : ℕ) :
    MAX_RETRIES = 3
    ∧ (tryActivate hs ps op rand).2.1 ≤ MAX_RETRIES
    ∧ ((tryActivate hs ps op rand).1 = false ↔
        ∀ i < MAX_RETRIES, hs i = .OPENING ∧ op i = false ∧ ps i = .OPENING)
    ∧ ((tryActivate hs ps op rand).1 = false →
        (tryActivate hs ps op rand).2.1 = MAX_RETRIES)
    ∧ (∀ j, j < (tryActivate hs ps op rand).2.1 → op j = true →
        (tryActivate hs ps op rand).1 = true
        ∧ (tryActivate hs ps op rand).2.1 = j + 1)
    ∧ (tryActivate hs ps op rand).2.2
        = (List.range (tryActivate hs ps op rand).2.2.length).map
            (fun i => initialRetryTime rand * 6 ^ i)
    ∧ (tryActivate hs ps op rand).2.2.length ≤ MAX_RETRIES - 1
    ∧ 10 * SECONDS ≤ initialRetryTime rand
    ∧ initialRetryTime rand < 10 * SECONDS + 1 * SECONDS := by
  refine ⟨rfl, ?_, ?_, ?_, ?_, ?_, ?_, ?_, ?_⟩
  · simpa [MAX_RETRIES] using tryActivateGo_le hs ps op 3 0 (initialRetryTime rand)
  · have h := tryActivateGo_false_iff hs ps op 2 0 (initialRetryTime rand)
    rw [show (2 + 1 : ℕ) = 3 from rfl] at h
    unfold tryActivate MAX_RETRIES
    rw [h]
    unfold allFailing
    constructor
    · intro ha i hi
      simpa using ha i hi
    · intro ha i hi
      simpa using ha i hi
  · intro hf
    have h := tryActivateGo_false_count hs ps op 2 0 (initialRetryTime rand) hf
    simpa [MAX_RETRIES] using h
  · intro j hj hop
    exact tryActivateGo_succ_at hs ps op 3 0 (initialRetryTime rand) j hj
      (Nat.zero_le j) hop
  · exact (tryActivateGo_sleeps hs ps op 3 0 (initialRetryTime rand)).1
  · simpa [MAX_RETRIES] using
      (tryActivateGo_sleeps hs ps op 3 0 (initialRetryTime rand)).2
  · unfold initialRetryTime
    omega
  · unfold initialRetryTime SECONDS MILLISECONDS
    have h1 : (rand % U32) % 1000 < 1000 := Nat.mod_lt _ (by norm_num)
    omega

/-- `dropLine` consumes exactly through the first newline. -/
theorem dropLine_append (l t : List Char) (hl : '\n' ∉ l) :
    dropLine (l ++ '\n' :: t) = t := by
  induction l with
  | nil => simp [dropLine]
  | cons c cs ih =>
    have hc : c ≠ '\n' := fun he => hl (by simp [he])
    have hcs : '\n' ∉ cs := fun hm => hl (by simp [hm])
    simp [dropLine, hc, ih hcs]

/-- The URL scan consumes a space-free URL up to its terminating space. -/
theorem scanUrl_exact (u : List Char) :
    ∀ (b : ℕ) (r : List Char), ' ' ∉ u → u.length ≤ b →
      scanUrl b (u ++ ' ' :: r) = some (u, r) := by
  induction u with
  | nil =>
    intro b r _ _
    cases b <;> simp [scanUrl]
  | cons c cs ih =>
    intro b r hsp hlen
    have hc : c ≠ ' ' := fun he => hsp (by simp [he])
    have hcs : ' ' ∉ cs := fun hm => hsp (by simp [hm])
    match b with
    | 0 => simp at hlen
    | b' + 1 =>
      have hr := ih b' r hcs (by simpa using hlen)
      simp [scanUrl, hc, hr]

/-- `fileReadGo` at the end of the file. -/
theorem fileReadGo_nil : ∀ f, fileReadGo f [] = [] := by
  intro f
  cases f with
  | zero => simp [fileReadGo]
  | succ n => simp [fileReadGo]

/-- `fileReadGo` skips a blank line, consuming one unit of fuel. -/
theorem fileReadGo_blank (f : ℕ) (cs : List Char) :
    fileReadGo (f + 1) ('\n' :: cs) = fileReadGo f cs := by
  simp [fileReadGo]

/-- `fileReadGo` skips a comment line, consuming one unit of fuel. -/
theorem fileReadGo_comment (f : ℕ) (l t : List Char) (hl : '\n' ∉ l) :
    fileReadGo (f + 1) ('#' :: (l ++ '\n' :: t)) = fileReadGo f t := by
  simp [fileReadGo, dropLine_append l t hl]

/-- `%u` digits: base-10 fold over a reversed digit list. -/
theorem foldl_base10 (l : List ℕ) :
    ∀ a : ℕ, List.foldl (fun x d => 10 * x + d) a l.reverse
      = a * 10 ^ l.length + Nat.ofDigits 10 l := by
  induction l with
  | nil =>
    intro a
    simp [Nat.ofDigits]
  | cons d t ih =>
    intro a
    rw [List.reverse_cons, List.foldl_append]
    rw [ih a]
    simp only [List.foldl_cons, List.foldl_nil, Nat.ofDigits_cons, List.length_cons]
    ring

/-- The character a decimal digit renders to, read back as a value. -/
theorem digitChar_toNat (d : ℕ) (h : d < 10) :
    (Nat.digitChar d).toNat = 48 + d := by
  interval_cases d <;> decide

/-- The characters `%u` emits are decimal digits. -/
theorem mem_decimalChars_isDigit (n : ℕ) (c : Char)
    (h : c ∈ decimalChars n) : isDigitByte c = true := by
  unfold decimalChars at h
  split at h
  · simp at h
    subst h
    decide
  · simp only [List.mem_map, List.mem_reverse] at h
    obtain ⟨d, hd, he⟩ := h
    have hlt : d < 10 := Nat.digits_lt_base (by norm_num) hd
    subst he
    interval_cases d <;> decide

/-- `%u` emits at least one digit. -/
theorem decimalChars_ne_nil (n : ℕ) : decimalChars n ≠ [] := by
  unfold decimalChars
  split
  · simp
  · simp only [ne_eq, List.map_eq_nil_iff, List.reverse_eq_nil_iff]
    intro hdig
    simp_all [Nat.digits_eq_nil_iff_eq_zero]

/-- A digit character is not whitespace, a newline, a space or a comment
mark. -/
theorem isDigitByte_props (c : Char) (h : isDigitByte c = true) :
    isSpaceByte c = false ∧ c ≠ '\n' ∧ c ≠ ' ' ∧ c ≠ '#' := by
  unfold isDigitByte at h
  simp only [Bool.and_eq_true, decide_eq_true_eq] at h
  refine ⟨?_, ?_, ?_, ?_⟩
  · unfold isSpaceByte
    simp only [Bool.or_eq_false_iff, Bool.and_eq_false_iff, decide_eq_false_iff_not]
    omega
  · intro he
    subst he
    simp at h
  · intro he
    subst he
    simp at h
  · intro he
    subst he
    simp at h

/-- Reading back the digits `%u` emitted recovers the value. -/
theorem digitsVal_decimalChars (n : ℕ) : digitsVal (decimalChars n) = n := by
  unfold digitsVal decimalChars
  split
  · rename_i h0
    subst h0
    decide
  · rename_i hn
    rw [List.foldl_map]
    have hstep : ∀ (a : ℕ), ∀ d ∈ (Nat.digits 10 n).reverse,
        (fun a d => 10 * a + ((Nat.digitChar d).toNat - 48)) a d
          = (fun a d => 10 * a + d) a d := by
      intro a d hd
      rw [List.mem_reverse] at hd
      have hlt : d < 10 := Nat.digits_lt_base (by norm_num) hd
      simp only []
      rw [digitChar_toNat d hlt]
      omega
    rw [List.foldl_ext (fun a d => 10 * a + ((Nat.digitChar d).toNat - 48))
      (fun a d => 10 * a + d) 0 hstep]
    rw [foldl_base10]
    simp [Nat.ofDigits_digits]

/-- `fscanf %u` on a digit run followed by a newline reads exactly the run. -/
theorem scanfReadUInt_exact (ds r : List Char) (hne : ds ≠ [])
    (hd : ∀ c ∈ ds, isDigitByte c = true) :
    scanfReadUInt (ds ++ '\n' :: r) = some (digitsVal ds, '\n' :: r) := by
  obtain ⟨d, ds', rfl⟩ : ∃ d ds', ds = d :: ds' := by
    cases ds with
    | nil => exact absurd rfl hne
    | cons d ds' => exact ⟨d, ds', rfl⟩
  have hd0 : isDigitByte d = true := hd d (by simp)
  have hsp : isSpaceByte d = false := (isDigitByte_props d hd0).1
  have hdrop : (((d :: ds') ++ '\n' :: r).dropWhile isSpaceByte)
      = (d :: ds') ++ '\n' :: r := by
    simp [List.dropWhile_cons, hsp]
  have hnl : isDigitByte '\n' = false := by decide
  have htake : (((d :: ds') ++ '\n' :: r).takeWhile isDigitByte) = d :: ds' := by
    rw [List.takeWhile_append_of_pos hd]
    simp [List.takeWhile_cons, hnl]
  have hdrop2 : (((d :: ds') ++ '\n' :: r).dropWhile isDigitByte) = '\n' :: r := by
    rw [List.dropWhile_append_of_pos hd]
    simp [List.dropWhile_cons, hnl]
  unfold scanfReadUInt
  rw [hdrop, htake, hdrop2]
  simp

/-- `fileReadGo` parses one well-formed record line, consuming one unit of
fuel. -/
theorem fileReadGo_record (f : ℕ) (u ds t : List Char)
    (hu : u ≠ []) (hsp : ' ' ∉ u) (hnl : '\n' ∉ u) (hh : u.head? ≠ some '#')
    (hlen : u.length ≤ CKTP_MAX_URL_LENGTH)
    (hds : ds ≠ []) (hdd : ∀ c ∈ ds, isDigitByte c = true)
    (hval : digitsVal ds ≤ 255) :
    fileReadGo (f + 1) (u ++ ' ' :: (ds ++ '\n' :: t))
      = (String.mk u, digitsVal ds) :: fileReadGo f t := by
  obtain ⟨c, u', rfl⟩ : ∃ c u', u = c :: u' := by
    cases u with
    | nil => exact absurd rfl hu
    | cons c u' => exact ⟨c, u', rfl⟩
  have hc_nl : c ≠ '\n' := fun he => hnl (by simp [he])
  have hc_hash : c ≠ '#' := by
    intro he
    apply hh
    simp [he]
  have hscan := scanUrl_exact (c :: u') CKTP_MAX_URL_LENGTH (ds ++ '\n' :: t)
    hsp hlen
  have hread := scanfReadUInt_exact ds t hds hdd
  have hnotlt : ¬ (255 < digitsVal ds) := by omega
  simp only [List.cons_append] at hscan ⊢
  simp [fileReadGo, hc_nl, hc_hash, hscan, hread, hnotlt]

/-- Parsing the record blocks `tunnel_file_write` emits recovers exactly the
records with nonzero age, in order. -/
theorem fileReadGo_writeBlocks (cache : List (String × ℕ)) :
    (∀ r ∈ cache, goodRecord r) → ∀ f : ℕ,
      fileReadGo (f + 3 * countNZ cache) (writeBlocks cache)
        = cache.filter (fun r => decide (r.2 ≠ 0)) := by
  induction cache with
  | nil =>
    intro _ f
    simp only [writeBlocks, countNZ]
    simp [fileReadGo_nil]
  | cons r rest ih =>
    intro hc f
    have hgr := hc r (by simp)
    have hrest : ∀ x ∈ rest, goodRecord x := fun x hx => hc x (by simp [hx])
    by_cases hr2 : r.2 = 0
    · have hcz : countNZ (r :: rest) = countNZ rest := by simp [countNZ, hr2]
      have hwz : writeBlocks (r :: rest) = writeBlocks rest := by
        simp [writeBlocks, hr2]
      rw [hcz, hwz, ih hrest f]
      simp [List.filter, hr2]
    · obtain ⟨hu_ne, hu_len, hu_sp, hu_nl, hu_hd, hage⟩ := hgr
      have hds_ne : decimalChars r.2 ≠ [] := decimalChars_ne_nil r.2
      have hds_dig : ∀ c ∈ decimalChars r.2, isDigitByte c = true :=
        fun c hcm => mem_decimalChars_isDigit r.2 c hcm
      have hds_val : digitsVal (decimalChars r.2) = r.2 := digitsVal_decimalChars r.2
      have hds_nonl : '\n' ∉ decimalChars r.2 := by
        intro hm
        exact (isDigitByte_props _ (hds_dig _ hm)).2.1 rfl
      have hcz : countNZ (r :: rest) = countNZ rest + 1 := by
        simp [countNZ, hr2]
        omega
      have hshape : writeBlocks (r :: rest)
          = '#' :: ((" AGE = ".data ++ decimalChars r.2) ++ '\n' ::
              (r.1.data ++ ' ' :: (decimalChars r.2 ++ '\n' ::
                ('\n' :: writeBlocks rest)))) := by
        simp [writeBlocks, recordBlock, hr2, List.append_assoc]
      have hl1 : '\n' ∉ " AGE = ".data ++ decimalChars r.2 := by
        intro hm
        rcases List.mem_append.mp hm with hm | hm
        · revert hm
          decide
        · exact hds_nonl hm
      rw [hcz, hshape]
      have e1 : f + 3 * (countNZ rest + 1) = (f + 3 * countNZ rest + 2) + 1 := by
        omega
      rw [e1]
      rw [fileReadGo_comment _ _ _ hl1]
      have e2 : f + 3 * countNZ rest + 2 = (f + 3 * countNZ rest + 1) + 1 := by
        omega
      rw [e2]
      rw [fileReadGo_record _ _ _ _ hu_ne hu_sp hu_nl hu_hd hu_len hds_ne
        hds_dig (by omega)]
      rw [fileReadGo_blank]
      rw [ih hrest f]
      rw [hds_val]
      have hmk : String.mk r.1.data = r.1 := rfl
      rw [hmk]
      simp [List.filter, hr2]

/-- Each persisted block is at least 3 characters long (one loop iteration
per line). -/
theorem writeBlocks_length (cache : List (String × ℕ)) :
    3 * countNZ cache ≤ (writeBlocks cache).length := by
  induction cache with
  | nil => simp [writeBlocks, countNZ]
  | cons r rest ih =>
    by_cases hr2 : r.2 = 0
    · simp [writeBlocks, countNZ, hr2, ih]
    · have h7 : (" AGE = ".data).length = 7 := by decide
      have hrb : 3 ≤ (recordBlock r.1 r.2).length := by
        simp [recordBlock, List.length_append, h7]
      have hcz : countNZ (r :: rest) = countNZ rest + 1 := by
        simp [countNZ, hr2]
        omega
      have hwz : writeBlocks (r :: rest)
          = recordBlock r.1 r.2 ++ writeBlocks rest := by
        simp [writeBlocks, hr2]
      rw [hcz, hwz, List.length_append]
      omega

/-- Claim C7: reading back a cache file produced by `tunnel_file_write`
reconstructs exactly the (url, age) pairs of the cache records with
nonzero age, in the same relative order; records with age 0 are omitted by
the writer and absent after the round trip, and the header comment lines,
per-record comment lines and blank lines are all skipped by
`tunnel_file_read`. -/
theorem fileRead_roundtrip (progName : String) (cache : List (String × ℕ))
    (hp : '\n' ∉ progName.data) (hc : ∀ r ∈ cache, goodRecord r) :
    fileRead (fileWriteContent progName cache)
      = cache.filter (fun r => decide (r.2 ≠ 0)) := by
  have hshape : fileWriteContent progName cache
      = '#' :: ((' ' :: (progName.data ++ " tunnel cache".data)) ++ '\n' ::
          ('#' :: (" AUTOMATICALLY GENERATED, DO NOT EDIT".data ++ '\n' ::
            ('\n' :: writeBlocks cache)))) := by
    have h1 : " tunnel cache\n".data = " tunnel cache".data ++ ['\n'] := by decide
    have h2 : "# AUTOMATICALLY GENERATED, DO NOT EDIT\n\n".data
        = '#' :: (" AUTOMATICALLY GENERATED, DO NOT EDIT".data
            ++ ['\n', '\n']) := by decide
    simp [fileWriteContent, h1, h2, List.append_assoc]
  have hl1 : '\n' ∉ ' ' :: (progName.data ++ " tunnel cache".data) := by
    intro hm
    simp only [List.mem_cons, List.mem_append] at hm
    rcases hm with hm | hm | hm
    · exact absurd hm.symm (by decide)
    · exact hp hm
    · revert hm
      decide
  have hl2 : '\n' ∉ " AUTOMATICALLY GENERATED, DO NOT EDIT".data := by decide
  have hblen := writeBlocks_length cache
  have h13 : (" tunnel cache".data).length = 13 := by decide
  have h37 : (" AUTOMATICALLY GENERATED, DO NOT EDIT".data).length = 37 := by
    decide
  unfold fileRead
  rw [hshape]
  have hlen : ('#' :: ((' ' :: (progName.data ++ " tunnel cache".data)) ++ '\n' ::
      ('#' :: (" AUTOMATICALLY GENERATED, DO NOT EDIT".data ++ '\n' ::
        ('\n' :: writeBlocks cache))))).length
      = progName.data.length + (writeBlocks cache).length + 56 := by
    simp [List.length_append, h13, h37]
    omega
  rw [hlen]
  rw [fileReadGo_comment _ _ _ hl1]
  have e2 : progName.data.length + (writeBlocks cache).length + 56
      = (progName.data.length + (writeBlocks cache).length + 55) + 1 := by omega
  rw [e2, fileReadGo_comment _ _ _ hl2]
  have e3 : progName.data.length + (writeBlocks cache).length + 55
      = (progName.data.length + (writeBlocks cache).length + 54) + 1 := by omega
  rw [e3, fileReadGo_blank]
  have e4 : progName.data.length + (writeBlocks cache).length + 54
      = (progName.data.length + (writeBlocks cache).length + 54
          - 3 * countNZ cache) + 3 * countNZ cache := by omega
  rw [e4, fileReadGo_writeBlocks cache hc _]

/-- Claim C7 witness: a concrete three-record cache (ages 16, 0, 3) written
and read back yields exactly the two records with nonzero age, in order. -/
theorem fileRead_roundtrip_wit :
    fileRead (fileWriteContent "reqrypt"
      [("cktp://a", 16), ("cktp://b", 0), ("cktp://c", 3)])
      = [("cktp://a", 16), ("cktp://c", 3)] := by
  have h := fileRead_roundtrip "reqrypt"
    [("cktp://a", 16), ("cktp://b", 0), ("cktp://c", 3)]
    (by decide) (by unfold goodRecord; decide)
  rw [h]
  decide
